import Mathlib

/-!
Verification of `create_files` from `src/template.py` (project-scaffolding
utility).  We shallowly embed the routine over an explicit filesystem model:
the filesystem is an association list from absolute, component-wise paths to
nodes (regular files with string content, or directories).  Python paths are
modelled as a flag (absolute?) plus a component list; `Path.resolve()` is
modelled as lexical normalization of `.` and `..` components.  Exceptions are
modelled with `Except`: the per-entry `mkdir` and `write_text` failures that
the source catches become caught cases inside `step`, while the uncaught
`IndexError` of normalizing a short tuple propagates out of `createFiles`.
-/

/-- A path component (one segment between separators). -/
abbrev Comp := String

/-- An absolute, resolved filesystem path, as a component list from the root. -/
abbrev AbsPath := List Comp

/-- A filesystem node: a regular file with its text content, or a directory. -/
inductive Node where
  | file (content : String)
  | dir
deriving DecidableEq, Repr

/-- The filesystem: an association list from absolute paths to nodes.  Lookup
finds the first (most recent) binding for a key. -/
abbrev FS := List (AbsPath × Node)

/-- Lookup of a path in the filesystem (first binding wins). -/
def lookupFS : FS → AbsPath → Option Node
  | [], _ => none
  | (q, n) :: rest, p => if q = p then some n else lookupFS rest p

/-- Bind a path to a node, shadowing any earlier binding. -/
def insertFS (fs : FS) (p : AbsPath) (n : Node) : FS := (p, n) :: fs

/-- Model of a Python `pathlib.Path` value before resolution: whether it is
absolute, and its raw components (which may include "." and ".."). -/
structure PyPath where
  absolute : Bool
  comps : List String
deriving DecidableEq, Repr

/-- The path obtained from `str(None)`: the relative path `Path("None")`.
This is what `Path(str(entry.get("path")))` yields for a dict without a
usable `path` key (template.py line 51). -/
def nonePath : PyPath := ⟨false, ["None"]⟩

/-- Lexical normalization of a component list, as applied by `Path.resolve()`:
"." vanishes, ".." removes the preceding component (and is a no-op at the
root), other components are kept in order. -/
def normComps (cs : List String) : List String :=
  cs.foldl
    (fun acc c =>
      if c = "." then acc else if c = ".." then acc.dropLast else acc ++ [c])
    []

/-- Path resolution (template.py lines 58-62): a relative path is joined to
`base` and resolved; an absolute path is resolved as given. -/
def resolveTarget (base : AbsPath) (p : PyPath) : AbsPath :=
  if p.absolute then normComps p.comps else normComps (base ++ p.comps)

/-- One input descriptor ("entry" in the source).  A tuple/list is modelled by
its first two accesses (`entry[0]`, `entry[1]`), a `none` meaning the index is
out of range; a dict by its optional `path` and `content` keys (a `none`
meaning the key is missing or bound to `None`); anything else is a bare path. -/
inductive Entry where
  | tup (first : Option PyPath) (second : Option String)
  | dict (path : Option PyPath) (content : Option String)
  | bare (path : PyPath)
deriving DecidableEq, Repr

/-- The Python exceptions that can escape normalization. -/
inductive PyError where
  | indexError
deriving DecidableEq, Repr

/-- Normalization of one entry (template.py lines 48-55): a tuple/list reads
`entry[0]` and `entry[1]` (raising IndexError when too short, outside any
try block); a dict reads `entry.get("path")` (yielding `str(None)` = "None"
when absent) and `entry.get("content", default_content)`; a bare value is
the path, with `default_content` as content. -/
def normalizeEntry (defaultContent : String) : Entry → Except PyError (PyPath × String)
  | .tup f s =>
    match f, s with
    | some p, some c => .ok (p, c)
    | _, _ => .error .indexError
  | .dict p c => .ok (p.getD nonePath, c.getD defaultContent)
  | .bare p => .ok (p, defaultContent)

/-- All nonempty prefixes of a path, shortest first, ending with the path
itself: the chain of directories `mkdir(parents=True)` walks. -/
def prefixesOf : AbsPath → List AbsPath
  | [] => []
  | c :: rest => [c] :: (prefixesOf rest).map (c :: ·)

/-- `mkdir(parents=True, exist_ok=True)` succeeds iff no component along the
way (the path itself included) exists as a regular file. -/
def mkdirOk (fs : FS) (p : AbsPath) : Bool :=
  (prefixesOf p).all fun q =>
    match lookupFS fs q with
    | some (.file _) => false
    | _ => true

/-- Create the missing directories along a prefix chain (existing nodes are
left alone, `exist_ok=True`). -/
def mkdirFold (fs : FS) (qs : List AbsPath) : FS :=
  qs.foldl
    (fun acc q => if (lookupFS acc q).isSome then acc else insertFS acc q .dir)
    fs

/-- `parent.mkdir(parents=True, exist_ok=True)` (template.py line 74): `none`
models the raised-and-caught exception when a component exists as a file. -/
def mkdirParents (fs : FS) (p : AbsPath) : Option FS :=
  if mkdirOk fs p then some (mkdirFold fs (prefixesOf p)) else none

/-- `target.write_text(content)` (template.py line 89): fails
(IsADirectoryError) when the target exists as a directory, otherwise creates
or replaces the file with exactly `content`. -/
def writeFile (fs : FS) (t : AbsPath) (c : String) : Option FS :=
  match lookupFS fs t with
  | some .dir => none
  | _ => some (insertFS fs t (.file c))

/-- The keyword arguments of `create_files`. -/
structure Config where
  base : AbsPath
  dryRun : Bool
  overwrite : Bool
  defaultContent : String
deriving DecidableEq, Repr

/-- The body of one iteration of the loop of `create_files` (template.py
lines 47-93): normalize, resolve, ensure the parent directory (caught on
failure: skip), skip an existing target unless `overwrite`, short-circuit in
dry-run, otherwise write (caught on failure: skip).  Returns the updated
filesystem and the target to append to `created` (or `none` when skipped). -/
def step (cfg : Config) (fs : FS) (e : Entry) : Except PyError (FS × Option AbsPath) :=
  match normalizeEntry cfg.defaultContent e with
  | .error err => .error err
  | .ok (p, content) =>
    let target := resolveTarget cfg.base p
    let parent := target.dropLast
    if cfg.dryRun then
      -- mkdir is guarded by `if not dry_run` (line 73), so no mutation here;
      -- the existence check of line 79 still runs before the dry-run append.
      if (lookupFS fs target).isSome && !cfg.overwrite then .ok (fs, none)
      else .ok (fs, some target)
    else
      match mkdirParents fs parent with
      | none => .ok (fs, none)
      | some fs1 =>
        if (lookupFS fs1 target).isSome && !cfg.overwrite then .ok (fs1, none)
        else
          match writeFile fs1 target content with
          | some fs2 => .ok (fs2, some target)
          | none => .ok (fs1, none)

/-- `create_files` (template.py lines 25-95): fold `step` over the entries in
order, collecting the created (or would-be-created) targets.  An uncaught
exception from normalization aborts the whole call. -/
def createFiles (cfg : Config) (fs : FS) : List Entry → Except PyError (FS × List AbsPath)
  | [] => .ok (fs, [])
  | e :: rest =>
    match step cfg fs e with
    | .error err => .error err
    | .ok (fs1, o) =>
      match createFiles cfg fs1 rest with
      | .error err => .error err
      | .ok (fs2, created) => .ok (fs2, o.toList ++ created)

/-- The resolved target a descriptor would map to, when it normalizes. -/
def entryTarget (cfg : Config) (e : Entry) : Option AbsPath :=
  match normalizeEntry cfg.defaultContent e with
  | .ok (p, _) => some (resolveTarget cfg.base p)
  | .error _ => none

/-- In dry-run, the target the loop would append for one descriptor: present
iff the descriptor normalizes and the target is either absent from the
filesystem or `overwrite` is set. -/
def dryRunWouldCreate (cfg : Config) (fs : FS) (e : Entry) : Option AbsPath :=
  match normalizeEntry cfg.defaultContent e with
  | .error _ => none
  | .ok (p, _) =>
    let t := resolveTarget cfg.base p
    if (lookupFS fs t).isSome && !cfg.overwrite then none else some t

/-- A batch is clean when every entry's step succeeds and creates its file
(no normalization error, no mkdir failure, no skip, no write failure). -/
def cleanRun (cfg : Config) : FS → List Entry → Bool
  | _, [] => true
  | fs, e :: rest =>
    match step cfg fs e with
    | .ok (fs1, some _) => cleanRun cfg fs1 rest
    | _ => false

/-- `fs` is preserved inside `fs'`: every binding visible in `fs` is still
visible, unchanged, in `fs'`. -/
def FSle (fs fs' : FS) : Prop :=
  ∀ q n, lookupFS fs q = some n → lookupFS fs' q = some n

theorem FSle.refl (fs : FS) : FSle fs fs := fun _ _ h => h

theorem FSle.trans {a b c : FS} (h1 : FSle a b) (h2 : FSle b c) : FSle a c :=
  fun q n h => h2 q n (h1 q n h)

theorem lookup_insert (fs : FS) (q r : AbsPath) (n : Node) :
    lookupFS (insertFS fs q n) r = if q = r then some n else lookupFS fs r := by
  simp [insertFS, lookupFS]

theorem FSle_insert_fresh {fs : FS} {t : AbsPath} (n : Node)
    (h : lookupFS fs t = none) : FSle fs (insertFS fs t n) := by
  intro q m hq
  rw [lookup_insert]
  split
  · next heq => rw [heq] at h; rw [h] at hq; exact absurd hq (by simp)
  · exact hq

theorem mkdirFold_cons (fs : FS) (q : AbsPath) (qs : List AbsPath) :
    mkdirFold fs (q :: qs) =
      mkdirFold (if (lookupFS fs q).isSome then fs else insertFS fs q .dir) qs := by
  simp only [mkdirFold, List.foldl]

theorem mkdirFold_preserves {qs : List AbsPath} :
    ∀ {fs : FS} {q : AbsPath} {n : Node}, lookupFS fs q = some n →
      lookupFS (mkdirFold fs qs) q = some n := by
  induction qs with
  | nil => intro fs q n h; simpa [mkdirFold] using h
  | cons r rs ih =>
    intro fs q n h
    rw [mkdirFold_cons]
    split
    · exact ih h
    · next hs =>
      apply ih
      rw [lookup_insert]
      split
      · next heq => subst heq; rw [h] at hs; simp at hs
      · exact h

theorem mkdirFold_le (fs : FS) (qs : List AbsPath) : FSle fs (mkdirFold fs qs) :=
  fun _ _ h => mkdirFold_preserves h

theorem mkdirFold_not_mem {qs : List AbsPath} :
    ∀ {fs : FS} {q : AbsPath}, q ∉ qs →
      lookupFS (mkdirFold fs qs) q = lookupFS fs q := by
  induction qs with
  | nil => intro fs q _; simp [mkdirFold]
  | cons r rs ih =>
    intro fs q h
    rw [List.mem_cons, not_or] at h
    rw [mkdirFold_cons]
    split
    · exact ih h.2
    · rw [ih h.2, lookup_insert, if_neg (fun heq => h.1 heq.symm)]

theorem mkdirFold_mem_dir {qs : List AbsPath} :
    ∀ {fs : FS} {q : AbsPath}, (∀ s, lookupFS fs q ≠ some (Node.file s)) →
      q ∈ qs → lookupFS (mkdirFold fs qs) q = some Node.dir := by
  induction qs with
  | nil => intro fs q _ h; exact absurd h (List.not_mem_nil q)
  | cons r rs ih =>
    intro fs q hnf hmem
    rw [mkdirFold_cons]
    rcases List.mem_cons.mp hmem with heq | hmem2
    · subst heq
      split
      · next hs =>
        -- the node at q exists and is not a file, so it is a directory
        rcases Option.isSome_iff_exists.mp hs with ⟨n, hn⟩
        cases n with
        | file s => exact absurd hn (hnf s)
        | dir => exact mkdirFold_preserves hn
      · exact mkdirFold_preserves (by rw [lookup_insert, if_pos rfl])
    · apply ih _ hmem2
      intro s
      split
      · exact hnf s
      · rw [lookup_insert]
        split
        · simp
        · exact hnf s

theorem mkdirFold_noop {qs : List AbsPath} :
    ∀ {fs : FS}, (∀ q ∈ qs, (lookupFS fs q).isSome) → mkdirFold fs qs = fs := by
  induction qs with
  | nil => intro fs _; simp [mkdirFold]
  | cons r rs ih =>
    intro fs h
    rw [mkdirFold_cons, if_pos (h r (List.mem_cons_self r rs))]
    exact ih fun q hq => h q (List.mem_cons_of_mem r hq)

theorem mkdirParents_le {fs fs' : FS} {p : AbsPath}
    (h : mkdirParents fs p = some fs') : FSle fs fs' := by
  unfold mkdirParents at h
  split at h
  · cases h; exact mkdirFold_le _ _
  · cases h

theorem mkdirParents_outside {fs fs' : FS} {p q : AbsPath}
    (h : mkdirParents fs p = some fs') (hq : q ∉ prefixesOf p) :
    lookupFS fs' q = lookupFS fs q := by
  unfold mkdirParents at h
  split at h
  · cases h; exact mkdirFold_not_mem hq
  · cases h

theorem mkdirParents_dirs {fs fs' : FS} {p q : AbsPath}
    (h : mkdirParents fs p = some fs') (hq : q ∈ prefixesOf p) :
    lookupFS fs' q = some Node.dir := by
  unfold mkdirParents at h
  split at h
  · next hok =>
    cases h
    apply mkdirFold_mem_dir _ hq
    intro s hs
    have := List.all_eq_true.mp hok q hq
    rw [hs] at this
    simp at this
  · cases h

theorem mkdirParents_noop {fs : FS} {p : AbsPath}
    (h : ∀ q ∈ prefixesOf p, lookupFS fs q = some Node.dir) :
    mkdirParents fs p = some fs := by
  unfold mkdirParents
  rw [if_pos, mkdirFold_noop]
  · intro q hq; rw [h q hq]; simp
  · apply List.all_eq_true.mpr
    intro q hq
    rw [h q hq]

theorem prefixesOf_length_le {p q : AbsPath} (h : q ∈ prefixesOf p) :
    q.length ≤ p.length := by
  induction p generalizing q with
  | nil => simp [prefixesOf] at h
  | cons c rest ih =>
    rcases List.mem_cons.mp h with heq | hmem
    · subst heq; simp
    · rcases List.mem_map.mp hmem with ⟨r, hr, hrq⟩
      subst hrq
      simpa using Nat.succ_le_succ (ih hr)

theorem self_not_mem_prefixes_dropLast (t : AbsPath) :
    t ∉ prefixesOf t.dropLast := by
  intro h
  have hlen := prefixesOf_length_le h
  cases t with
  | nil => simp [prefixesOf] at h
  | cons c rest =>
    rw [List.length_dropLast] at hlen
    simp only [List.length_cons] at hlen
    omega

theorem normComps_no_dots {cs : List String} {c : Comp} (h : c ∈ normComps cs) :
    c ≠ "." ∧ c ≠ ".." := by
  unfold normComps at h
  suffices H : ∀ (acc : List String), (∀ x ∈ acc, x ≠ "." ∧ x ≠ "..") →
      ∀ x ∈ cs.foldl
        (fun acc c =>
          if c = "." then acc else if c = ".." then acc.dropLast else acc ++ [c])
        acc, x ≠ "." ∧ x ≠ ".." by
    exact H [] (by simp) c h
  clear h
  induction cs with
  | nil => intro acc hacc x hx; exact hacc x hx
  | cons d rest ih =>
    intro acc hacc x hx
    rw [List.foldl_cons] at hx
    refine ih _ ?_ x hx
    split
    · exact hacc
    · split
      · exact fun y hy => hacc y (List.dropLast_sublist acc |>.mem hy)
      · next hd1 hd2 =>
        intro y hy
        rcases List.mem_append.mp hy with hya | hyb
        · exact hacc y hya
        · rw [List.mem_singleton.mp hyb]; exact ⟨hd1, hd2⟩

theorem step_norm_error {cfg : Config} {fs : FS} {e : Entry} {err : PyError}
    (hn : normalizeEntry cfg.defaultContent e = .error err) :
    step cfg fs e = .error err := by
  unfold step
  rw [hn]

theorem step_dry {cfg : Config} {fs : FS} {e : Entry} {pc : PyPath × String}
    (hdry : cfg.dryRun = true)
    (hn : normalizeEntry cfg.defaultContent e = .ok pc) :
    step cfg fs e = .ok (fs, dryRunWouldCreate cfg fs e) := by
  obtain ⟨p, c⟩ := pc
  unfold step dryRunWouldCreate
  rw [hn]
  dsimp only
  rw [if_pos hdry]
  split <;> rfl

theorem createFiles_cons_of {cfg : Config} {fs fs1 fs2 : FS} {e : Entry}
    {rest : List Entry} {o : Option AbsPath} {cr : List AbsPath}
    (hs : step cfg fs e = .ok (fs1, o))
    (hr : createFiles cfg fs1 rest = .ok (fs2, cr)) :
    createFiles cfg fs (e :: rest) = .ok (fs2, o.toList ++ cr) := by
  unfold createFiles
  rw [hs]
  dsimp only
  rw [hr]

theorem createFiles_cons_err {cfg : Config} {fs : FS} {e : Entry}
    {rest : List Entry} {err : PyError} (hs : step cfg fs e = .error err) :
    createFiles cfg fs (e :: rest) = .error err := by
  unfold createFiles
  rw [hs]

theorem createFiles_cons_inv {cfg : Config} {fs fs2 : FS} {e : Entry}
    {rest : List Entry} {created : List AbsPath}
    (h : createFiles cfg fs (e :: rest) = .ok (fs2, created)) :
    ∃ fs1 o cr, step cfg fs e = .ok (fs1, o) ∧
      createFiles cfg fs1 rest = .ok (fs2, cr) ∧ created = o.toList ++ cr := by
  unfold createFiles at h
  split at h
  · cases h
  · next fs1 o hs =>
    split at h
    · cases h
    · next fs2' cr hr =>
      cases h
      exact ⟨fs1, o, cr, hs, hr, rfl⟩

theorem step_dry_fs {cfg : Config} {fs fs1 : FS} {e : Entry} {o : Option AbsPath}
    (hdry : cfg.dryRun = true) (hs : step cfg fs e = .ok (fs1, o)) : fs1 = fs := by
  unfold step at hs
  rcases hn : normalizeEntry cfg.defaultContent e with err | pc
  · rw [hn] at hs; cases hs
  · rw [hn, hdry] at hs
    simp only [if_true] at hs
    split at hs <;> (cases hs; rfl)

/-- Claim C2: for every descriptor list, a dry-run call performs no filesystem
mutation: whenever `createFiles` returns normally under `dryRun = true`, the
final filesystem equals the initial one. -/
theorem claim_C2 (cfg : Config) (fs : FS) (es : List Entry) {fs1 : FS}
    {created : List AbsPath} (hdry : cfg.dryRun = true)
    (h : createFiles cfg fs es = .ok (fs1, created)) : fs1 = fs := by
  induction es generalizing fs created with
  | nil => unfold createFiles at h; cases h; rfl
  | cons e rest ih =>
    rcases createFiles_cons_inv h with ⟨fsa, o, cr, hs, hr, -⟩
    rw [ih fsa hr, step_dry_fs hdry hs]

/-- Claim C2 witness: a concrete dry run over one existing and one missing
target leaves the filesystem untouched. -/
theorem claim_C2_witness :
    ([(["b", "x.txt"], Node.file "old")] : FS) =
      [(["b", "x.txt"], Node.file "old")] :=
  claim_C2 ⟨["b"], true, false, ""⟩ [(["b", "x.txt"], Node.file "old")]
    [Entry.bare ⟨false, ["x.txt"]⟩, Entry.bare ⟨false, ["y.txt"]⟩] rfl rfl

/-- Claim C5: normalization extracts path and content by shape: a pair gives
(first, second); a mapping gives its `path` key and its `content` key,
substituting `default_content` when `content` is absent; a bare value is the
path with `default_content` as content. -/
theorem claim_C5 (dc : String) (p : PyPath) (c : String) :
    normalizeEntry dc (Entry.tup (some p) (some c)) = .ok (p, c) ∧
    normalizeEntry dc (Entry.dict (some p) (some c)) = .ok (p, c) ∧
    normalizeEntry dc (Entry.dict (some p) none) = .ok (p, dc) ∧
    normalizeEntry dc (Entry.bare p) = .ok (p, dc) :=
  ⟨rfl, rfl, rfl, rfl⟩

/-- Claim C6 counterexample: a pair with fewer than two elements is not
skipped: the IndexError from `entry[1]` (raised outside any try block,
template.py line 49) escapes the call and aborts the batch, so the following
valid descriptor is never processed and no list is returned. -/
theorem claim_C6_counterexample :
    createFiles ⟨["b"], false, false, ""⟩ []
      [Entry.tup (some ⟨false, ["a.txt"]⟩) none,
       Entry.bare ⟨false, ["ok.txt"]⟩] = .error .indexError := rfl

/-- Claim C6 amended: a pair with fewer than two elements raises an uncaught
IndexError that aborts the whole call (no per-entry skip, the batch does not
continue); a mapping with no `path` key is not treated as a failure at all:
its path becomes the literal string "None" (from `str(None)`) and the entry
is processed like any other descriptor. -/
theorem claim_C6 (cfg : Config) (fs : FS) (p : PyPath) (rest : List Entry)
    (dc c : String) :
    createFiles cfg fs (Entry.tup (some p) none :: rest) = .error .indexError ∧
    createFiles cfg fs (Entry.tup none none :: rest) = .error .indexError ∧
    createFiles cfg fs (Entry.tup none (some c) :: rest) = .error .indexError ∧
    normalizeEntry dc (Entry.dict none (some c)) = .ok (nonePath, c) ∧
    normalizeEntry dc (Entry.dict none none) = .ok (nonePath, dc) :=
  ⟨rfl, rfl, rfl, rfl, rfl⟩

/-- Claim C1 counterexample: in dry-run with `overwrite = false`, a descriptor
whose resolved target already exists is NOT appended to the result: the
existence check of template.py line 79 runs before the dry-run short-circuit
of line 83, so the returned list is empty rather than containing the resolved
target. -/
theorem claim_C1_counterexample :
    createFiles ⟨["b"], true, false, ""⟩ [(["b", "x.txt"], Node.file "old")]
      [Entry.bare ⟨false, ["x.txt"]⟩] =
      .ok ([(["b", "x.txt"], Node.file "old")], []) ∧
    entryTarget ⟨["b"], true, false, ""⟩ (Entry.bare ⟨false, ["x.txt"]⟩) =
      some ["b", "x.txt"] ∧
    ([] : List AbsPath) ≠ [["b", "x.txt"]] :=
  ⟨rfl, rfl, by simp⟩

/-- Claim C1 amended: with `dry_run = True` and every descriptor
normalizable, `create_files` leaves the filesystem unchanged and returns, in
input order, the resolved target of each descriptor whose target is absent
from the filesystem or for which `overwrite` is true; a descriptor whose
target already exists with `overwrite = false` is omitted (the existence
check precedes the dry-run short-circuit). -/
theorem claim_C1 (cfg : Config) (fs : FS) (es : List Entry)
    (hdry : cfg.dryRun = true)
    (hnorm : ∀ e ∈ es, ∃ pc, normalizeEntry cfg.defaultContent e = .ok pc) :
    createFiles cfg fs es = .ok (fs, es.filterMap (dryRunWouldCreate cfg fs)) := by
  induction es with
  | nil => rfl
  | cons e rest ih =>
    rcases hnorm e (List.mem_cons_self e rest) with ⟨pc, hpc⟩
    rw [createFiles_cons_of (step_dry hdry hpc)
      (ih fun x hx => hnorm x (List.mem_cons_of_mem e hx))]
    rcases ho : dryRunWouldCreate cfg fs e with _ | t <;>
      simp [List.filterMap_cons, ho]

/-- Claim C1 witness: concrete dry run over one fresh target, applying the
amended theorem. -/
theorem claim_C1_witness :
    createFiles ⟨["b"], true, false, ""⟩ [(["b", "x.txt"], Node.file "old")]
      [Entry.bare ⟨false, ["y.txt"]⟩] =
      .ok ([(["b", "x.txt"], Node.file "old")],
        List.filterMap
          (dryRunWouldCreate ⟨["b"], true, false, ""⟩
            [(["b", "x.txt"], Node.file "old")])
          [Entry.bare ⟨false, ["y.txt"]⟩]) :=
  claim_C1 ⟨["b"], true, false, ""⟩ [(["b", "x.txt"], Node.file "old")]
    [Entry.bare ⟨false, ["y.txt"]⟩] rfl
    (by intro e he; rw [List.mem_singleton.mp he]; exact ⟨_, rfl⟩)

theorem step_real {cfg : Config} {fs : FS} {e : Entry} {p : PyPath} {c : String}
    (hdr : cfg.dryRun = false)
    (hn : normalizeEntry cfg.defaultContent e = .ok (p, c)) :
    step cfg fs e =
      match mkdirParents fs (resolveTarget cfg.base p).dropLast with
      | none => .ok (fs, none)
      | some fs1 =>
        if (lookupFS fs1 (resolveTarget cfg.base p)).isSome && !cfg.overwrite then
          .ok (fs1, none)
        else
          match writeFile fs1 (resolveTarget cfg.base p) c with
          | some fs2 => .ok (fs2, some (resolveTarget cfg.base p))
          | none => .ok (fs1, none) := by
  unfold step
  rw [hn]
  dsimp only
  rw [if_neg (by simp [hdr])]

theorem step_ok_norm {cfg : Config} {fs fs1 : FS} {e : Entry} {o : Option AbsPath}
    (hs : step cfg fs e = .ok (fs1, o)) :
    ∃ p c, normalizeEntry cfg.defaultContent e = .ok (p, c) := by
  rcases hn : normalizeEntry cfg.defaultContent e with err | ⟨p, c⟩
  · rw [step_norm_error hn] at hs; cases hs
  · exact ⟨p, c, rfl⟩

theorem createFiles_nil (cfg : Config) (fs : FS) :
    createFiles cfg fs [] = .ok (fs, []) := rfl

theorem createFiles_singleton {cfg : Config} {fs fs1 : FS} {e : Entry}
    {o : Option AbsPath} (hs : step cfg fs e = .ok (fs1, o)) :
    createFiles cfg fs [e] = .ok (fs1, o.toList) := by
  rw [createFiles_cons_of hs (createFiles_nil cfg fs1), List.append_nil]

/-- Claim C10: the existence-based skip applies to any existing filesystem
object, not only regular files: if the resolved target exists as a directory
and `overwrite = false`, the descriptor is skipped without error and omitted
from the returned list, and the directory is still there afterwards. -/
theorem claim_C10 (cfg : Config) (fs : FS) (e : Entry) (p : PyPath) (c : String)
    (how : cfg.overwrite = false)
    (hn : normalizeEntry cfg.defaultContent e = .ok (p, c))
    (hdir : lookupFS fs (resolveTarget cfg.base p) = some Node.dir) :
    ∃ fs1, createFiles cfg fs [e] = .ok (fs1, []) ∧
      lookupFS fs1 (resolveTarget cfg.base p) = some Node.dir := by
  have hstep : ∃ fs1, step cfg fs e = .ok (fs1, none) ∧
      lookupFS fs1 (resolveTarget cfg.base p) = some Node.dir := by
    cases hd : cfg.dryRun with
    | true =>
      refine ⟨fs, ?_, hdir⟩
      rw [step_dry hd hn]
      unfold dryRunWouldCreate
      rw [hn]
      dsimp only
      rw [if_pos (by rw [hdir, how]; rfl)]
    | false =>
      rw [step_real hd hn]
      rcases hmk : mkdirParents fs (resolveTarget cfg.base p).dropLast with _ | fsa
      · exact ⟨fs, rfl, hdir⟩
      · have hpres := mkdirParents_le hmk _ _ hdir
        dsimp only
        rw [if_pos (by rw [hpres, how]; rfl)]
        exact ⟨fsa, rfl, hpres⟩
  rcases hstep with ⟨fs1, hs, hpres⟩
  exact ⟨fs1, by rw [createFiles_singleton hs]; rfl, hpres⟩

/-- Claim C10 witness: a directory at the resolved target is skipped. -/
theorem claim_C10_witness :
    ∃ fs1, createFiles ⟨["b"], false, false, ""⟩ [(["b", "sub"], Node.dir)]
        [Entry.bare ⟨false, ["sub"]⟩] = .ok (fs1, []) ∧
      lookupFS fs1 (resolveTarget ["b"] ⟨false, ["sub"]⟩) = some Node.dir :=
  claim_C10 ⟨["b"], false, false, ""⟩ [(["b", "sub"], Node.dir)]
    (Entry.bare ⟨false, ["sub"]⟩) ⟨false, ["sub"]⟩ "" rfl rfl rfl

/-- Claim C3: with an existing file `"old"` at the resolved target and
`dry_run = false`, a call with `overwrite = false` leaves the content `"old"`
and omits the target from the result; the same call with `overwrite = true`
(when the parent chain is creatable, as it always is on a real filesystem
holding a file at the target) replaces the content with the descriptor's
content and includes the target in the result. -/
theorem claim_C3 (b : AbsPath) (dc : String) (fs : FS) (e : Entry) (p : PyPath)
    (c : String) (hn : normalizeEntry dc e = .ok (p, c))
    (hold : lookupFS fs (resolveTarget b p) = some (Node.file "old")) :
    (∃ fs1, createFiles ⟨b, false, false, dc⟩ fs [e] = .ok (fs1, []) ∧
      lookupFS fs1 (resolveTarget b p) = some (Node.file "old")) ∧
    (∀ fsa, mkdirParents fs (resolveTarget b p).dropLast = some fsa →
      createFiles ⟨b, false, true, dc⟩ fs [e] =
        .ok (insertFS fsa (resolveTarget b p) (Node.file c), [resolveTarget b p]) ∧
      lookupFS (insertFS fsa (resolveTarget b p) (Node.file c))
        (resolveTarget b p) = some (Node.file c)) := by
  constructor
  · have hstep : ∃ fs1, step ⟨b, false, false, dc⟩ fs e = .ok (fs1, none) ∧
        lookupFS fs1 (resolveTarget b p) = some (Node.file "old") := by
      rw [step_real rfl hn]
      rcases hmk : mkdirParents fs (resolveTarget b p).dropLast with _ | fsa
      · exact ⟨fs, rfl, hold⟩
      · have hpres := mkdirParents_le hmk _ _ hold
        dsimp only
        rw [if_pos (by rw [hpres]; rfl)]
        exact ⟨fsa, rfl, hpres⟩
    rcases hstep with ⟨fs1, hs, hpres⟩
    exact ⟨fs1, by rw [createFiles_singleton hs]; rfl, hpres⟩
  · intro fsa hmk
    have hpres := mkdirParents_le hmk _ _ hold
    have hw : writeFile fsa (resolveTarget b p) c =
        some (insertFS fsa (resolveTarget b p) (Node.file c)) := by
      unfold writeFile
      rw [hpres]
    have hs : step ⟨b, false, true, dc⟩ fs e =
        .ok (insertFS fsa (resolveTarget b p) (Node.file c),
          some (resolveTarget b p)) := by
      rw [step_real rfl hn]
      rw [hmk]
      dsimp only
      rw [if_neg (by simp), hw]
    refine ⟨by rw [createFiles_singleton hs]; rfl, ?_⟩
    rw [lookup_insert, if_pos rfl]

/-- Claim C3 witness: concrete overwrite gating on a file containing "old". -/
theorem claim_C3_witness :
    (∃ fs1, createFiles ⟨["b"], false, false, ""⟩
        [(["b", "x.txt"], Node.file "old"), (["b"], Node.dir)]
        [Entry.tup (some ⟨false, ["x.txt"]⟩) (some "new")] = .ok (fs1, []) ∧
      lookupFS fs1 (resolveTarget ["b"] ⟨false, ["x.txt"]⟩) =
        some (Node.file "old")) ∧
    (∀ fsa, mkdirParents [(["b", "x.txt"], Node.file "old"), (["b"], Node.dir)]
        (resolveTarget ["b"] ⟨false, ["x.txt"]⟩).dropLast = some fsa →
      createFiles ⟨["b"], false, true, ""⟩
          [(["b", "x.txt"], Node.file "old"), (["b"], Node.dir)]
          [Entry.tup (some ⟨false, ["x.txt"]⟩) (some "new")] =
        .ok (insertFS fsa (resolveTarget ["b"] ⟨false, ["x.txt"]⟩)
            (Node.file "new"), [resolveTarget ["b"] ⟨false, ["x.txt"]⟩]) ∧
      lookupFS (insertFS fsa (resolveTarget ["b"] ⟨false, ["x.txt"]⟩)
          (Node.file "new")) (resolveTarget ["b"] ⟨false, ["x.txt"]⟩) =
        some (Node.file "new")) :=
  claim_C3 ["b"] "" [(["b", "x.txt"], Node.file "old"), (["b"], Node.dir)]
    (Entry.tup (some ⟨false, ["x.txt"]⟩) (some "new")) ⟨false, ["x.txt"]⟩ "new"
    rfl rfl

/-- Claim C4: for a descriptor with explicit content whose resolved target
does not yet exist, a non-dry-run call (with a creatable parent chain) ends
with the file present at the target holding exactly the descriptor's content
(the empty string included), and the target appended to the result. -/
theorem claim_C4 (cfg : Config) (fs fsa : FS) (e : Entry) (p : PyPath)
    (c : String) (hdr : cfg.dryRun = false)
    (hn : normalizeEntry cfg.defaultContent e = .ok (p, c))
    (hnew : lookupFS fs (resolveTarget cfg.base p) = none)
    (hmk : mkdirParents fs (resolveTarget cfg.base p).dropLast = some fsa) :
    createFiles cfg fs [e] =
      .ok (insertFS fsa (resolveTarget cfg.base p) (Node.file c),
        [resolveTarget cfg.base p]) ∧
    lookupFS (insertFS fsa (resolveTarget cfg.base p) (Node.file c))
      (resolveTarget cfg.base p) = some (Node.file c) := by
  have hsa : lookupFS fsa (resolveTarget cfg.base p) = none := by
    rw [mkdirParents_outside hmk (self_not_mem_prefixes_dropLast _), hnew]
  have hw : writeFile fsa (resolveTarget cfg.base p) c =
      some (insertFS fsa (resolveTarget cfg.base p) (Node.file c)) := by
    unfold writeFile
    rw [hsa]
  have hs : step cfg fs e =
      .ok (insertFS fsa (resolveTarget cfg.base p) (Node.file c),
        some (resolveTarget cfg.base p)) := by
    rw [step_real hdr hn]
    rw [hmk]
    dsimp only
    rw [if_neg (by simp [hsa]), hw]
  refine ⟨by rw [createFiles_singleton hs]; rfl, ?_⟩
  rw [lookup_insert, if_pos rfl]

/-- Claim C4 witness: creating `a/b.txt` with content "hello" under base `b`
from an empty filesystem. -/
theorem claim_C4_witness :
    createFiles ⟨["b"], false, false, ""⟩ []
        [Entry.tup (some ⟨false, ["a", "b.txt"]⟩) (some "hello")] =
      .ok (insertFS [(["b", "a"], Node.dir), (["b"], Node.dir)]
          (resolveTarget ["b"] ⟨false, ["a", "b.txt"]⟩) (Node.file "hello"),
        [resolveTarget ["b"] ⟨false, ["a", "b.txt"]⟩]) ∧
    lookupFS (insertFS [(["b", "a"], Node.dir), (["b"], Node.dir)]
        (resolveTarget ["b"] ⟨false, ["a", "b.txt"]⟩) (Node.file "hello"))
      (resolveTarget ["b"] ⟨false, ["a", "b.txt"]⟩) = some (Node.file "hello") :=
  claim_C4 ⟨["b"], false, false, ""⟩ [] [(["b", "a"], Node.dir), (["b"], Node.dir)]
    (Entry.tup (some ⟨false, ["a", "b.txt"]⟩) (some "hello"))
    ⟨false, ["a", "b.txt"]⟩ "hello" rfl rfl rfl rfl

theorem createFiles_cons_err2 {cfg : Config} {fs fs1 : FS} {e : Entry}
    {rest : List Entry} {o : Option AbsPath} {err : PyError}
    (hs : step cfg fs e = .ok (fs1, o))
    (hr : createFiles cfg fs1 rest = .error err) :
    createFiles cfg fs (e :: rest) = .error err := by
  unfold createFiles
  rw [hs]
  dsimp only
  rw [hr]

theorem createFiles_cons_skip {cfg : Config} {fs fs1 : FS} {e : Entry}
    {rest : List Entry} (hs : step cfg fs e = .ok (fs1, none)) :
    createFiles cfg fs (e :: rest) = createFiles cfg fs1 rest := by
  rcases h : createFiles cfg fs1 rest with err | ⟨fs2, cr⟩
  · exact createFiles_cons_err2 hs h
  · rw [createFiles_cons_of hs h]; rfl

/-- Claim C7: in a non-dry-run call, a directory-creation failure or a write
failure for one descriptor does not abort the batch: the run on `e :: rest`
equals the run on `rest` alone (from the filesystem state the failing entry
left behind), so every other descriptor is still processed and the result
lists exactly the successful targets. -/
theorem claim_C7 (cfg : Config) (fs : FS) (e : Entry) (rest : List Entry)
    (p : PyPath) (c : String) (hdr : cfg.dryRun = false)
    (hn : normalizeEntry cfg.defaultContent e = .ok (p, c)) :
    (mkdirParents fs (resolveTarget cfg.base p).dropLast = none →
      createFiles cfg fs (e :: rest) = createFiles cfg fs rest) ∧
    (∀ fsa, mkdirParents fs (resolveTarget cfg.base p).dropLast = some fsa →
      lookupFS fsa (resolveTarget cfg.base p) = some Node.dir →
      cfg.overwrite = true →
      createFiles cfg fs (e :: rest) = createFiles cfg fsa rest) := by
  constructor
  · intro hmk
    have hs : step cfg fs e = .ok (fs, none) := by
      rw [step_real hdr hn, hmk]
    exact createFiles_cons_skip hs
  · intro fsa hmk hdirt how
    have hw : writeFile fsa (resolveTarget cfg.base p) c = none := by
      unfold writeFile
      rw [hdirt]
    have hs : step cfg fs e = .ok (fsa, none) := by
      rw [step_real hdr hn, hmk]
      dsimp only
      rw [if_neg (by simp [how]), hw]
    exact createFiles_cons_skip hs

/-- Claim C7 witness: a parent chain blocked by a regular file at `r/b` does
not abort the batch. -/
theorem claim_C7_witness :
    (mkdirParents [(["r", "b"], Node.file "clash"), (["r"], Node.dir)]
        (resolveTarget ["r"] ⟨false, ["b", "x.txt"]⟩).dropLast = none →
      createFiles ⟨["r"], false, false, ""⟩
          [(["r", "b"], Node.file "clash"), (["r"], Node.dir)]
          [Entry.bare ⟨false, ["b", "x.txt"]⟩, Entry.bare ⟨false, ["ok.txt"]⟩] =
        createFiles ⟨["r"], false, false, ""⟩
          [(["r", "b"], Node.file "clash"), (["r"], Node.dir)]
          [Entry.bare ⟨false, ["ok.txt"]⟩]) ∧
    (∀ fsa, mkdirParents [(["r", "b"], Node.file "clash"), (["r"], Node.dir)]
        (resolveTarget ["r"] ⟨false, ["b", "x.txt"]⟩).dropLast = some fsa →
      lookupFS fsa (resolveTarget ["r"] ⟨false, ["b", "x.txt"]⟩) =
        some Node.dir →
      Config.overwrite ⟨["r"], false, false, ""⟩ = true →
      createFiles ⟨["r"], false, false, ""⟩
          [(["r", "b"], Node.file "clash"), (["r"], Node.dir)]
          [Entry.bare ⟨false, ["b", "x.txt"]⟩, Entry.bare ⟨false, ["ok.txt"]⟩] =
        createFiles ⟨["r"], false, false, ""⟩ fsa
          [Entry.bare ⟨false, ["ok.txt"]⟩]) :=
  claim_C7 ⟨["r"], false, false, ""⟩
    [(["r", "b"], Node.file "clash"), (["r"], Node.dir)]
    (Entry.bare ⟨false, ["b", "x.txt"]⟩) [Entry.bare ⟨false, ["ok.txt"]⟩]
    ⟨false, ["b", "x.txt"]⟩ "" rfl rfl

theorem step_some_inv {cfg : Config} {fs fs1 : FS} {e : Entry} {t : AbsPath}
    (hs : step cfg fs e = .ok (fs1, some t)) :
    entryTarget cfg e = some t := by
  rcases hn : normalizeEntry cfg.defaultContent e with err | ⟨p, c⟩
  · rw [step_norm_error hn] at hs; cases hs
  · unfold entryTarget
    rw [hn]
    dsimp only
    cases hd : cfg.dryRun with
    | false =>
      rw [step_real hd hn] at hs
      split at hs
      · simp at hs
      · split at hs
        · simp at hs
        · split at hs
          · simp only [Except.ok.injEq, Prod.mk.injEq, Option.some.injEq] at hs
            rw [hs.2]
          · simp at hs
    | true =>
      rw [step_dry hd hn] at hs
      simp only [Except.ok.injEq, Prod.mk.injEq] at hs
      have hd2 := hs.2
      unfold dryRunWouldCreate at hd2
      rw [hn] at hd2
      dsimp only at hd2
      split at hd2
      · cases hd2
      · exact hd2

theorem resolveTarget_no_dots {b : AbsPath} {p : PyPath} {comp : Comp}
    (h : comp ∈ resolveTarget b p) : comp ≠ "." ∧ comp ≠ ".." := by
  unfold resolveTarget at h
  split at h
  · exact normComps_no_dots h
  · exact normComps_no_dots h

theorem entryTarget_no_dots {cfg : Config} {e : Entry} {t : AbsPath} {comp : Comp}
    (ht : entryTarget cfg e = some t) (hc : comp ∈ t) :
    comp ≠ "." ∧ comp ≠ ".." := by
  unfold entryTarget at ht
  split at ht
  · cases ht
    exact resolveTarget_no_dots hc
  · cases ht

theorem filterMap_sublist_cons {α β : Type} (f : α → Option β) (a : α)
    (l : List α) : (l.filterMap f).Sublist ((a :: l).filterMap f) := by
  rw [List.filterMap_cons]
  split
  · exact List.Sublist.refl _
  · exact (List.Sublist.refl _).cons _

/-- Claim C8: whenever `createFiles` returns a list, that list is a
subsequence (same order, skipped/failed entries omitted) of the resolved
targets of the input descriptors, and every element is a fully normalized
absolute path: none of its components is "." or "..". -/
theorem claim_C8 (cfg : Config) (fs : FS) (es : List Entry) (fs2 : FS)
    (created : List AbsPath)
    (h : createFiles cfg fs es = .ok (fs2, created)) :
    created.Sublist (es.filterMap (entryTarget cfg)) ∧
    ∀ t ∈ created, ∀ comp ∈ t, comp ≠ "." ∧ comp ≠ ".." := by
  induction es generalizing fs created with
  | nil =>
    unfold createFiles at h
    cases h
    exact ⟨List.nil_sublist _, by simp⟩
  | cons e rest ih =>
    rcases createFiles_cons_inv h with ⟨fsa, o, cr, hs, hr, hcr⟩
    subst hcr
    obtain ⟨ihs, ihd⟩ := ih fsa cr hr
    cases o with
    | none =>
      refine ⟨?_, ?_⟩
      · simpa using ihs.trans (filterMap_sublist_cons (entryTarget cfg) e rest)
      · simpa using ihd
    | some t =>
      have het := step_some_inv hs
      refine ⟨?_, ?_⟩
      · simpa [List.filterMap_cons, het] using List.Sublist.cons₂ t ihs
      · intro t2 ht2
        rcases List.mem_cons.mp (by simpa using ht2) with h2 | hmem
        · subst h2
          exact fun comp hc => entryTarget_no_dots het hc
        · exact ihd t2 hmem

/-- Claim C8 witness: a run with one skipped and one created target returns
exactly the created target, a subsequence of the two resolved targets. -/
theorem claim_C8_witness :
    List.Sublist [["b", "new.txt"]]
      (List.filterMap (entryTarget ⟨["b"], false, false, ""⟩)
        [Entry.bare ⟨false, ["skip.txt"]⟩, Entry.bare ⟨false, ["new.txt"]⟩]) :=
  (claim_C8 ⟨["b"], false, false, ""⟩
    [(["b", "skip.txt"], Node.file "x"), (["b"], Node.dir)]
    [Entry.bare ⟨false, ["skip.txt"]⟩, Entry.bare ⟨false, ["new.txt"]⟩]
    ((["b", "new.txt"], Node.file "") ::
      [(["b", "skip.txt"], Node.file "x"), (["b"], Node.dir)])
    [["b", "new.txt"]] rfl).1

theorem step_mono {cfg : Config} {fs fs1 : FS} {e : Entry} {o : Option AbsPath}
    (how : cfg.overwrite = false) (hs : step cfg fs e = .ok (fs1, o)) :
    FSle fs fs1 := by
  rcases step_ok_norm hs with ⟨p, c, hn⟩
  cases hd : cfg.dryRun with
  | true =>
    rw [step_dry_fs hd hs]
    exact FSle.refl fs
  | false =>
    rw [step_real hd hn] at hs
    split at hs
    · cases hs
      exact FSle.refl fs
    · next fsa hmk =>
      have hle := mkdirParents_le hmk
      split at hs
      · cases hs
        exact hle
      · next hcond =>
        split at hs
        · next fs2 hw =>
          cases hs
          have hnone : lookupFS fsa (resolveTarget cfg.base p) = none := by
            rcases hl : lookupFS fsa (resolveTarget cfg.base p) with _ | n
            · rfl
            · exact absurd (by rw [hl, how]; rfl) hcond
          unfold writeFile at hw
          rw [hnone] at hw
          dsimp only at hw
          cases hw
          exact hle.trans (FSle_insert_fresh _ hnone)
        · cases hs
          exact hle

theorem createFiles_mono {cfg : Config} {fs g : FS} {es : List Entry}
    {created : List AbsPath} (how : cfg.overwrite = false)
    (h : createFiles cfg fs es = .ok (g, created)) : FSle fs g := by
  induction es generalizing fs created with
  | nil =>
    unfold createFiles at h
    cases h
    exact FSle.refl _
  | cons e rest ih =>
    rcases createFiles_cons_inv h with ⟨fsa, o, cr, hs, hr, -⟩
    exact (step_mono how hs).trans (ih hr)

theorem mkdirParents_none_inv {fs : FS} {p : AbsPath}
    (h : mkdirParents fs p = none) :
    ∃ q s, q ∈ prefixesOf p ∧ lookupFS fs q = some (Node.file s) := by
  unfold mkdirParents at h
  split at h
  · cases h
  · next hok =>
    unfold mkdirOk at hok
    rw [List.all_eq_true] at hok
    push_neg at hok
    rcases hok with ⟨q, hq, hpred⟩
    rcases hl : lookupFS fs q with _ | n
    · rw [hl] at hpred; simp at hpred
    · cases n with
      | file s => exact ⟨q, s, hq, hl⟩
      | dir => rw [hl] at hpred; simp at hpred

theorem mkdirParents_none_of {g : FS} {p q : AbsPath} {s : String}
    (hq : q ∈ prefixesOf p) (hl : lookupFS g q = some (Node.file s)) :
    mkdirParents g p = none := by
  have hok : ¬ (mkdirOk g p = true) := by
    intro hok
    have h2 := List.all_eq_true.mp hok q hq
    rw [hl] at h2
    simp at h2
  unfold mkdirParents
  rw [if_neg hok]

theorem step_stable {cfg : Config} {fs fs1 g : FS} {e : Entry} {o : Option AbsPath}
    (how : cfg.overwrite = false) (hdr : cfg.dryRun = false)
    (hs : step cfg fs e = .ok (fs1, o)) (hle : FSle fs1 g) :
    step cfg g e = .ok (g, none) := by
  rcases step_ok_norm hs with ⟨p, c, hn⟩
  rw [step_real hdr hn] at hs
  rw [step_real hdr hn]
  split at hs
  · next hmk =>
    cases hs
    rcases mkdirParents_none_inv hmk with ⟨q, s, hq, hl⟩
    rw [mkdirParents_none_of hq (hle _ _ hl)]
  · next fsa hmk =>
    have hdirs : ∀ q ∈ prefixesOf (resolveTarget cfg.base p).dropLast,
        lookupFS fsa q = some Node.dir := fun q hq => mkdirParents_dirs hmk hq
    split at hs
    · next hcond =>
      cases hs
      rw [mkdirParents_noop fun q hq => hle _ _ (hdirs q hq)]
      dsimp only
      rcases hl : lookupFS fs1 (resolveTarget cfg.base p) with _ | n
      · rw [hl] at hcond; simp at hcond
      · have hg := hle _ _ hl
        rw [if_pos (by rw [hg, how]; rfl)]
    · next hcond =>
      split at hs
      · next fs2 hw =>
        cases hs
        have hnone : lookupFS fsa (resolveTarget cfg.base p) = none := by
          rcases hl : lookupFS fsa (resolveTarget cfg.base p) with _ | n
          · rfl
          · exact absurd (by rw [hl, how]; rfl) hcond
        unfold writeFile at hw
        rw [hnone] at hw
        dsimp only at hw
        cases hw
        have hfsa : FSle fsa g := (FSle_insert_fresh _ hnone).trans hle
        rw [mkdirParents_noop fun q hq => hfsa _ _ (hdirs q hq)]
        dsimp only
        have hg : lookupFS g (resolveTarget cfg.base p) = some (Node.file c) := by
          apply hle
          rw [lookup_insert, if_pos rfl]
        rw [if_pos (by rw [hg, how]; rfl)]
      · next hw =>
        cases hs
        have hdirt : lookupFS fs1 (resolveTarget cfg.base p) = some Node.dir := by
          unfold writeFile at hw
          rcases hl : lookupFS fs1 (resolveTarget cfg.base p) with _ | n
          · rw [hl] at hw; dsimp only at hw; cases hw
          · cases n with
            | file s => rw [hl] at hw; dsimp only at hw; cases hw
            | dir => rfl
        rw [mkdirParents_noop fun q hq => hle _ _ (hdirs q hq)]
        dsimp only
        rw [if_pos (by rw [hle _ _ hdirt, how]; rfl)]

theorem createFiles_stable {cfg : Config} {fs g : FS} {es : List Entry}
    {created : List AbsPath} (how : cfg.overwrite = false)
    (hdr : cfg.dryRun = false)
    (h : createFiles cfg fs es = .ok (g, created)) :
    createFiles cfg g es = .ok (g, []) := by
  induction es generalizing fs created with
  | nil =>
    unfold createFiles at h
    cases h
    rfl
  | cons e rest ih =>
    rcases createFiles_cons_inv h with ⟨fsa, o, cr, hs, hr, -⟩
    have hle : FSle fsa g := createFiles_mono how hr
    rw [createFiles_cons_skip (step_stable how hdr hs hle)]
    exact ih hr

theorem cleanRun_run {cfg : Config} {fs : FS} {es : List Entry}
    (hclean : cleanRun cfg fs es = true) :
    ∃ g, createFiles cfg fs es = .ok (g, es.filterMap (entryTarget cfg)) := by
  induction es generalizing fs with
  | nil => exact ⟨fs, rfl⟩
  | cons e rest ih =>
    unfold cleanRun at hclean
    split at hclean
    · next fs1 t hs =>
      rcases ih hclean with ⟨g, hg⟩
      refine ⟨g, ?_⟩
      rw [createFiles_cons_of hs hg, List.filterMap_cons, step_some_inv hs]
      rfl
    · cases hclean

theorem cleanRun_isSome {cfg : Config} {fs : FS} {es : List Entry}
    (hclean : cleanRun cfg fs es = true) :
    ∀ e ∈ es, (entryTarget cfg e).isSome := by
  induction es generalizing fs with
  | nil => intro x hx; cases hx
  | cons e rest ih =>
    unfold cleanRun at hclean
    split at hclean
    · next fs1 t hs =>
      intro x hx
      rcases List.mem_cons.mp hx with h1 | h2
      · subst h1
        rw [step_some_inv hs]
        rfl
      · exact ih hclean x h2
    · cases hclean

/-- Claim C9: with `overwrite = false` and `dry_run = false`, on a clean
batch (every entry normalizes, its parent chain is creatable and its target
fresh) the first call creates every file — the result is the full resolved
target of every descriptor, in order — and a second identical call performs
zero writes (the filesystem is returned exactly as the first call left it)
and returns the empty list: no target that exists after the first call is
ever returned again. -/
theorem claim_C9 (cfg : Config) (fs : FS) (es : List Entry)
    (how : cfg.overwrite = false) (hdr : cfg.dryRun = false)
    (hclean : cleanRun cfg fs es = true) :
    ∃ g, createFiles cfg fs es = .ok (g, es.filterMap (entryTarget cfg)) ∧
      (∀ e ∈ es, (entryTarget cfg e).isSome) ∧
      createFiles cfg g es = .ok (g, []) := by
  rcases cleanRun_run hclean with ⟨g, hg⟩
  exact ⟨g, hg, cleanRun_isSome hclean, createFiles_stable how hdr hg⟩

/-- Claim C9 witness: the spec §8 scenario (`x.txt`, `y/y.txt` with "Y",
`z.txt` with "Z" under an empty base) is a clean batch. -/
theorem claim_C9_witness :
    ∃ g, createFiles ⟨["tmp"], false, false, ""⟩ []
        [Entry.bare ⟨false, ["x.txt"]⟩,
         Entry.tup (some ⟨false, ["y", "y.txt"]⟩) (some "Y"),
         Entry.dict (some ⟨false, ["z.txt"]⟩) (some "Z")] =
      .ok (g, List.filterMap (entryTarget ⟨["tmp"], false, false, ""⟩)
        [Entry.bare ⟨false, ["x.txt"]⟩,
         Entry.tup (some ⟨false, ["y", "y.txt"]⟩) (some "Y"),
         Entry.dict (some ⟨false, ["z.txt"]⟩) (some "Z")]) ∧
      (∀ e ∈ [Entry.bare ⟨false, ["x.txt"]⟩,
         Entry.tup (some ⟨false, ["y", "y.txt"]⟩) (some "Y"),
         Entry.dict (some ⟨false, ["z.txt"]⟩) (some "Z")],
        (entryTarget ⟨["tmp"], false, false, ""⟩ e).isSome) ∧
      createFiles ⟨["tmp"], false, false, ""⟩ g
        [Entry.bare ⟨false, ["x.txt"]⟩,
         Entry.tup (some ⟨false, ["y", "y.txt"]⟩) (some "Y"),
         Entry.dict (some ⟨false, ["z.txt"]⟩) (some "Z")] = .ok (g, []) :=
  claim_C9 ⟨["tmp"], false, false, ""⟩ []
    [Entry.bare ⟨false, ["x.txt"]⟩,
     Entry.tup (some ⟨false, ["y", "y.txt"]⟩) (some "Y"),
     Entry.dict (some ⟨false, ["z.txt"]⟩) (some "Z")] rfl rfl (by decide)
